import Mathlib

/-! Calendar model: dates are day numbers since 1970-01-01 (proleptic Gregorian),
    as pendulum dates under day arithmetic and comparison are order-isomorphic to
    their day numbers.  Conversions follow the standard civil-calendar algorithm,
    written for Lean's floor-convention integer division. -/

/-- Day number since 1970-01-01 of the civil date (y, m, d). -/
def days_from_civil (y m d : Int) : Int :=
  let yAdj : Int := if m ≤ 2 then y - 1 else y
  let era : Int := yAdj / 400
  let yoe : Int := yAdj - era * 400
  let mp : Int := if 2 < m then m - 3 else m + 9
  let doy : Int := (153 * mp + 2) / 5 + d - 1
  let doe : Int := yoe * 365 + yoe / 4 - yoe / 100 + doy
  era * 146097 + doe - 719468

/-- Civil date (y, m, d) of a day number since 1970-01-01. -/
def civil_from_days (z : Int) : Int × Int × Int :=
  let z' : Int := z + 719468
  let era : Int := z' / 146097
  let doe : Int := z' - era * 146097
  let yoe : Int := (doe - doe / 1460 + doe / 36524 - doe / 146096) / 365
  let y : Int := yoe + era * 400
  let doy : Int := doe - (365 * yoe + yoe / 4 - yoe / 100)
  let mp : Int := (5 * doy + 2) / 153
  let d : Int := doy - (153 * mp + 2) / 5 + 1
  let m : Int := if mp < 10 then mp + 3 else mp - 9
  (if m ≤ 2 then y + 1 else y, m, d)

/-! JSON-like values and insertion-ordered dictionaries, modelling Python dicts. -/

inductive JVal where
  | str : String → JVal
  | int : Int → JVal
  | obj : List (String × JVal) → JVal
  deriving Repr

/-- Boolean equality on JSON-like values (Python ==). -/
def JVal.beq : JVal → JVal → Bool
  | .str a, .str b => a == b
  | .int a, .int b => a == b
  | .obj a, .obj b => beqObj a b
  | _, _ => false
where beqObj : List (String × JVal) → List (String × JVal) → Bool
  | [], [] => true
  | (k1, v1) :: t1, (k2, v2) :: t2 => k1 == k2 && JVal.beq v1 v2 && beqObj t1 t2
  | _, _ => false

abbrev JDict := List (String × JVal)

/-- Python `k in d`. -/
def hasKey (d : JDict) (k : String) : Bool := d.any (fun p => p.1 == k)

/-- Python `d[k]`, None when the key is absent (a KeyError in Python). -/
def dictGet (d : JDict) (k : String) : Option JVal :=
  (d.find? (fun p => p.1 == k)).map (·.2)

/-- Python `d[k] = v`: overwrite in place when present, append otherwise. -/
def dictSet (d : JDict) (k : String) (v : JVal) : JDict :=
  if hasKey d k then d.map (fun p => if p.1 == k then (k, v) else p)
  else d ++ [(k, v)]

/-- Python `d.update(src)`. -/
def dictUpdate (d : JDict) (src : JDict) : JDict :=
  src.foldl (fun acc p => dictSet acc p.1 p.2) d

/-! The module constants. -/

def FIELDS_CHUNK_SIZE : Nat := 17
def WINDOW_IN_DAYS : Int := 30

def ANALYTICS_FIELDS_V2 : List String := [
  "actionClicks", "adUnitClicks", "approximateUniqueImpressions", "cardClicks",
  "cardImpressions", "clicks", "commentLikes", "comments", "companyPageClicks",
  "conversionValueInLocalCurrency", "costInLocalCurrency", "costInUsd", "dateRange",
  "externalWebsiteConversions", "externalWebsitePostClickConversions",
  "externalWebsitePostViewConversions", "follows", "fullScreenPlays", "impressions",
  "landingPageClicks", "leadGenerationMailContactInfoShares",
  "leadGenerationMailInterestedClicks", "likes", "oneClickLeadFormOpens",
  "oneClickLeads", "opens", "otherEngagements", "pivot", "pivotValue", "pivotValues",
  "reactions", "sends", "shares", "textUrlClicks", "totalEngagements",
  "videoCompletions", "videoFirstQuartileCompletions", "videoMidpointCompletions",
  "videoStarts", "videoThirdQuartileCompletions", "videoViews", "viralCardClicks",
  "viralCardImpressions", "viralClicks", "viralCommentLikes", "viralComments",
  "viralCompanyPageClicks", "viralExternalWebsiteConversions",
  "viralExternalWebsitePostClickConversions", "viralExternalWebsitePostViewConversions",
  "viralFollows", "viralFullScreenPlays", "viralImpressions", "viralLandingPageClicks",
  "viralLikes", "viralOneClickLeadFormOpens", "viralOneClickLeads",
  "viralOtherEngagements", "viralReactions", "viralShares", "viralTotalEngagements",
  "viralVideoCompletions", "viralVideoFirstQuartileCompletions",
  "viralVideoMidpointCompletions", "viralVideoStarts",
  "viralVideoThirdQuartileCompletions", "viralVideoViews"]

def BASE_ANALLYTICS_FIELDS : List String := ["dateRange", "pivot", "pivotValue"]

/-! Field Chunker. -/

/-- The list comprehension `fields[f : f + size] for f in range(0, len(fields), size)`.
    (Python raises ValueError on a zero step, so the size-0 case is unreachable
    for the documented inputs.) -/
def rawChunks (size : Nat) : List String → List (List String)
  | [] => []
  | f :: fs =>
    match size with
    | 0 => []
    | s + 1 => (f :: fs).take (s + 1) :: rawChunks (s + 1) (fs.drop s)
termination_by l => l.length
decreasing_by simp_all [List.length_drop]; omega

/-- The augmentation loop: append each base field absent from the chunk. -/
def includeBaseFields (chunk : List String) : List String :=
  BASE_ANALLYTICS_FIELDS.foldl (fun c field => if field ∈ c then c else c ++ [field]) chunk

def chunk_analytics_fields (fields : List String := ANALYTICS_FIELDS_V2)
    (fields_chunk_size : Nat := FIELDS_CHUNK_SIZE) : List (List String) :=
  (rawChunks fields_chunk_size fields).map includeBaseFields

/-! Date Windower. -/

/-- The inner component dict of a date slice, as built inside the loop of
    make_date_slices. -/
def drVal (start sliceEnd : Int) : JVal :=
  let s := civil_from_days start
  let e := civil_from_days sliceEnd
  JVal.obj [
    ("start.day", .int s.2.2), ("start.month", .int s.2.1), ("start.year", .int s.1),
    ("end.day", .int e.2.2), ("end.month", .int e.2.1), ("end.year", .int e.1)]

/-- The slice dict `{"dateRange": {"start.day": ..., ..., "end.year": ...}}`
    built inside the loop of make_date_slices. -/
def dateRangeDict (start sliceEnd : Int) : JDict := [("dateRange", drVal start sliceEnd)]

/-- The cursor advance `start = slice_end_date if slice_end_date <= end else end`. -/
def nextCursor (start end_ window : Int) : Int :=
  if start + window ≤ end_ then start + window else end_

/-- The while-loop of make_date_slices, fuelled; each iteration emits the pair
    (cursor, cursor + window) whose components the loop turns into a dict.
    none means the fuel was exhausted before the loop finished. -/
def dateSlicesLoop (window : Int) : Nat → Int → Int → Option (List (Int × Int))
  | 0, _, _ => none
  | fuel + 1, start, end_ =>
    if start < end_ then
      (dateSlicesLoop window fuel (nextCursor start end_ window) end_).map
        (fun rest => (start, start + window) :: rest)
    else some []

/-- The emitted (cursor, cursor + window) pairs of make_date_slices; for a
    positive window the fuel (end - start).toNat + 1 always suffices. -/
def make_date_slices_raw (start_date window_in_days end_date : Int) : List (Int × Int) :=
  (dateSlicesLoop window_in_days ((end_date - start_date).toNat + 1) start_date end_date).getD []

/-- make_date_slices with the dates already parsed to day numbers: the list of
    emitted `{"dateRange": {...}}` dicts. -/
def make_date_slices (start_date window_in_days end_date : Int) : List JDict :=
  (make_date_slices_raw start_date window_in_days end_date).map
    (fun p => dateRangeDict p.1 p.2)

/-- The fuel-free form of the while-loop of make_date_slices, defined by
    well-founded recursion on the remaining days; it agrees with the fuelled
    loop whenever the window is positive. -/
def dsList (w s e : Int) : List (Int × Int) :=
  if _h : s < e ∧ 0 < w then (s, s + w) :: dsList w (nextCursor s e w) e
  else []
termination_by (e - s).toNat
decreasing_by
  unfold nextCursor
  split <;> omega

/-- Invariant for the slice-builder accumulator: overwriting its fields and
    dateRange keys yields the same dict as overwriting them on the original
    base slice. -/
def GoodAcc (base X : JDict) : Prop :=
  ∀ c v : JVal, dictSet (dictSet X "fields" c) "dateRange" v =
    dictSet (dictSet base "fields" c) "dateRange" v

/-! Slice Builder. -/

def joinFields (fields : List String) : String := String.intercalate "," fields

/-- make_analytics_slices: base_slice stands for the external make_slice output;
    now stands for pendulum.now() used as the default end date.  The fold keeps
    the mutable base_slice as the first component and the appended copies as the
    second. -/
def make_analytics_slices (base_slice : JDict) (start_date now : Int) : List JDict :=
  ((chunk_analytics_fields ANALYTICS_FIELDS_V2 FIELDS_CHUNK_SIZE).foldl
    (fun acc fields_set =>
      let b1 := dictSet acc.1 "fields" (.str (joinFields fields_set))
      (make_date_slices start_date WINDOW_IN_DAYS now).foldl
        (fun acc2 date_slice =>
          let b2 := dictUpdate acc2.1 date_slice
          (b2, acc2.2 ++ [b2])) (b1, acc.2))
    (base_slice, ([] : List JDict))).2

/-! Param Flattener. -/

/-- update_analytics_params; none models the KeyError / TypeError a malformed
    slice raises. -/
def update_analytics_params (stream_slice : JDict) : Option JDict := do
  let dr ← dictGet stream_slice "dateRange"
  match dr with
  | .obj d => do
    let sd ← dictGet d "start.day"
    let sm ← dictGet d "start.month"
    let sy ← dictGet d "start.year"
    let ed ← dictGet d "end.day"
    let em ← dictGet d "end.month"
    let ey ← dictGet d "end.year"
    let fs ← dictGet stream_slice "fields"
    pure [("dateRange.start.day", sd), ("dateRange.start.month", sm),
          ("dateRange.start.year", sy), ("dateRange.end.day", ed),
          ("dateRange.end.month", em), ("dateRange.end.year", ey), ("fields", fs)]
  | _ => none

/-! Result Merger. -/

/-- One iteration body of merge_chunks: insert under head_key, or update the
    stored record in place. -/
def mergedInsert (m : List (JVal × JDict)) (hk : JVal) (rec : JDict) :
    List (JVal × JDict) :=
  if m.any (fun p => p.1.beq hk) then
    m.map (fun p => if p.1.beq hk then (p.1, dictUpdate p.2 rec) else p)
  else m ++ [(hk, rec)]

/-- The merged dict of merge_chunks; none models the KeyError raised when a
    record lacks the merge key. -/
def mergeMap (chunked_result : List (List JDict)) (merge_by_key : String) :
    Option (List (JVal × JDict)) :=
  chunked_result.foldlM (fun m chunk =>
    chunk.foldlM (fun m' rec =>
      (dictGet rec merge_by_key).map (fun hk => mergedInsert m' hk rec)) m) []

def merge_chunks (chunked_result : List (List JDict)) (merge_by_key : String) :
    Option (List JDict) :=
  (mergeMap chunked_result merge_by_key).map (fun m => m.map (·.2))

/-- First-occurrence deduplication, used to state the merge ordering property. -/
def dedupFirst (l : List JVal) : List JVal :=
  l.foldl (fun acc k => if acc.any (fun x => x.beq k) then acc else acc ++ [k]) []

/-! Dictionary lemmas used by the slice-builder proof. -/

theorem dictSet_of_hasKey (d : JDict) (k : String) (v : JVal)
    (h : hasKey d k = true) :
    dictSet d k v = d.map (fun p => if p.1 == k then (k, v) else p) := by
  unfold dictSet; simp [h]

theorem dictSet_of_not_hasKey (d : JDict) (k : String) (v : JVal)
    (h : hasKey d k = false) :
    dictSet d k v = d ++ [(k, v)] := by
  unfold dictSet; simp [h]

theorem map_overwrite_of_not_hasKey (d : JDict) (k : String) (v : JVal)
    (h : hasKey d k = false) :
    d.map (fun p => if p.1 == k then (k, v) else p) = d := by
  induction d with
  | nil => rfl
  | cons p t ih =>
    simp only [hasKey, List.any_cons, Bool.or_eq_false_iff] at h
    simp only [List.map_cons, h.1, Bool.false_eq_true, if_false,
      ih (by simpa [hasKey] using h.2)]

theorem hasKey_append_self (d : JDict) (k : String) (v : JVal) :
    hasKey (d ++ [(k, v)]) k = true := by
  simp [hasKey, List.any_append]

theorem hasKey_append (d d' : JDict) (k : String) :
    hasKey (d ++ d') k = (hasKey d k || hasKey d' k) := by
  simp [hasKey, List.any_append]

theorem hasKey_map_overwrite (d : JDict) (k k' : String) (v : JVal) :
    hasKey (d.map (fun p => if p.1 == k' then (k', v) else p)) k = hasKey d k := by
  induction d with
  | nil => rfl
  | cons p t ih =>
    by_cases hp : (p.1 == k') = true
    · have hp1 : p.1 = k' := by simpa using hp
      simp only [List.map_cons, hp, if_true, hasKey, List.any_cons] at ih ⊢
      rw [ih, hp1]
    · simp only [List.map_cons, hp, Bool.false_eq_true, if_false, hasKey,
        List.any_cons] at ih ⊢
      rw [ih]

theorem hasKey_dictSet (d : JDict) (k : String) (v : JVal) :
    hasKey (dictSet d k v) k = true := by
  by_cases h : hasKey d k
  · rw [dictSet_of_hasKey d k v h, hasKey_map_overwrite]; exact h
  · rw [dictSet_of_not_hasKey d k v (by simpa using h)]
    exact hasKey_append_self d k v

theorem hasKey_dictSet_ne (d : JDict) (k k' : String) (v : JVal)
    (hne : (k' == k) = false) :
    hasKey (dictSet d k' v) k = hasKey d k := by
  by_cases h : hasKey d k'
  · rw [dictSet_of_hasKey d k' v h, hasKey_map_overwrite]
  · rw [dictSet_of_not_hasKey d k' v (by simpa using h), hasKey_append,
      show hasKey [(k', v)] k = false from by simp [hasKey, hne]]
    simp

theorem dictSet_dictSet_same (d : JDict) (k : String) (v v' : JVal) :
    dictSet (dictSet d k v) k v' = dictSet d k v' := by
  by_cases h : hasKey d k
  · rw [dictSet_of_hasKey d k v h,
      dictSet_of_hasKey _ k v' (by
        rw [← dictSet_of_hasKey d k v h]; exact hasKey_dictSet d k v),
      dictSet_of_hasKey d k v' h, List.map_map]
    have hfun : ((fun p : String × JVal => if p.1 == k then (k, v') else p) ∘
        (fun p : String × JVal => if p.1 == k then (k, v) else p)) =
        (fun p : String × JVal => if p.1 == k then (k, v') else p) := by
      funext p
      by_cases hp : (p.1 == k) = true <;> simp [Function.comp, hp]
    rw [hfun]
  · have h' : hasKey d k = false := by simpa using h
    rw [dictSet_of_not_hasKey d k v h',
      dictSet_of_hasKey _ k v' (hasKey_append_self d k v),
      dictSet_of_not_hasKey d k v' h', List.map_append,
      map_overwrite_of_not_hasKey d k v' h']
    simp

theorem dictSet_swap (d : JDict) (k k' : String) (v v' : JVal)
    (hk : hasKey d k = true) (hne : (k' == k) = false) :
    dictSet (dictSet d k' v') k v = dictSet (dictSet d k v) k' v' := by
  have hne' : (k == k') = false := by
    simp only [beq_eq_false_iff_ne] at hne ⊢; exact Ne.symm hne
  by_cases h' : hasKey d k'
  · rw [dictSet_of_hasKey d k' v' h',
      dictSet_of_hasKey _ k v (by
        rw [← dictSet_of_hasKey d k' v' h', hasKey_dictSet_ne d k k' v' hne]
        exact hk),
      dictSet_of_hasKey d k v hk,
      dictSet_of_hasKey _ k' v' (by
        rw [← dictSet_of_hasKey d k v hk, hasKey_dictSet_ne d k' k v hne']
        exact h'),
      List.map_map, List.map_map]
    apply List.map_congr_left
    intro p _
    by_cases hp : (p.1 == k) = true
    · have hp1 : p.1 = k := by simpa using hp
      have : (p.1 == k') = false := by rw [hp1]; exact hne'
      simp [Function.comp, hp, this, hne, hne']
    · by_cases hp' : (p.1 == k') = true
      · simp [Function.comp, hp, hp', hne, hne']
      · simp [Function.comp, hp, hp']
  · have h'f : hasKey d k' = false := by simpa using h'
    rw [dictSet_of_not_hasKey d k' v' h'f,
      dictSet_of_hasKey _ k v (by rw [hasKey_append, hk]; simp),
      dictSet_of_hasKey d k v hk,
      dictSet_of_not_hasKey _ k' v' (by
        rw [← dictSet_of_hasKey d k v hk, hasKey_dictSet_ne d k' k v hne']
        exact h'f),
      List.map_append]
    simp
    intro he
    exact absurd he (by simpa using hne)

/-! Windower lemmas: dsList agrees with the fuelled loop whenever the window is
    positive. -/

theorem dsList_pos (w s e : Int) (h : s < e ∧ 0 < w) :
    dsList w s e = (s, s + w) :: dsList w (nextCursor s e w) e := by
  rw [dsList, dif_pos h]

theorem dsList_neg (w s e : Int) (h : ¬ (s < e ∧ 0 < w)) :
    dsList w s e = [] := by
  rw [dsList, dif_neg h]

theorem dateSlicesLoop_eq_dsList (w e : Int) (hw : 0 < w) :
    ∀ (f : Nat) (s : Int), (e - s).toNat < f →
      dateSlicesLoop w f s e = some (dsList w s e) := by
  intro f
  induction f with
  | zero => intro s hs; omega
  | succ f ih =>
    intro s hs
    by_cases h : s < e
    · rw [dateSlicesLoop, if_pos h,
        ih (nextCursor s e w) (by unfold nextCursor at *; split <;> omega),
        dsList_pos w s e ⟨h, hw⟩]
      rfl
    · rw [dateSlicesLoop, if_neg h, dsList_neg w s e (by tauto)]

theorem make_date_slices_raw_eq_dsList (s w e : Int) (hw : 0 < w) :
    make_date_slices_raw s w e = dsList w s e := by
  unfold make_date_slices_raw
  rw [dateSlicesLoop_eq_dsList w e hw ((e - s).toNat + 1) s (by omega)]
  rfl

theorem dsList_span (w s e : Int) :
    ∀ p ∈ dsList w s e, p.2 = p.1 + w := by
  induction s, e using dsList.induct w with
  | case1 s e h ih =>
    rw [dsList_pos w s e h]
    intro p hp
    rcases List.mem_cons.mp hp with rfl | hp
    · rfl
    · exact ih p hp
  | case2 s e h =>
    rw [dsList_neg w s e h]
    intro p hp
    simp at hp

theorem nextCursor_eq (s e w : Int) :
    nextCursor s e w = if s + w ≤ e then s + w else e := rfl

theorem dsList_chain (w s e : Int) :
    List.Chain' (fun p q : Int × Int => p.2 ≤ e ∧ q.1 = p.2) (dsList w s e) := by
  induction s, e using dsList.induct w with
  | case1 s e h ih =>
    rw [dsList_pos w s e h, List.chain'_cons']
    refine ⟨?_, ih⟩
    intro q hq
    by_cases h2 : nextCursor s e w < e ∧ 0 < w
    · rw [dsList_pos w _ e h2] at hq
      simp only [List.head?_cons, Option.mem_def, Option.some.injEq] at hq
      subst hq
      have hlt : s + w ≤ e := by
        rcases h2 with ⟨h2, _⟩
        rw [nextCursor_eq] at h2
        by_contra hc
        rw [if_neg hc] at h2
        omega
      have hnc : nextCursor s e w = s + w := by rw [nextCursor_eq, if_pos hlt]
      exact ⟨hlt, by simpa using hnc⟩
    · rw [dsList_neg w _ e h2] at hq
      simp at hq
  | case2 s e h =>
    rw [dsList_neg w s e h]
    exact List.chain'_nil

theorem dsList_getLast (w s e : Int) (hw : 0 < w) :
    ∀ p, (dsList w s e).getLast? = some p → p.1 < e ∧ e ≤ p.2 := by
  induction s, e using dsList.induct w with
  | case1 s e h ih =>
    rw [dsList_pos w s e h]
    intro p hp
    by_cases h2 : nextCursor s e w < e ∧ 0 < w
    · rw [dsList_pos w _ e h2, List.getLast?_cons_cons] at hp
      exact ih p (by rw [dsList_pos w _ e h2]; exact hp)
    · rw [dsList_neg w _ e h2] at hp
      simp only [List.getLast?_singleton, Option.some.injEq] at hp
      subst hp
      refine ⟨h.1, ?_⟩
      have hnc : ¬ nextCursor s e w < e := fun hc => h2 ⟨hc, hw⟩
      rw [nextCursor_eq] at hnc
      by_cases hc : s + w ≤ e
      · rw [if_pos hc] at hnc; omega
      · omega
  | case2 s e h =>
    rw [dsList_neg w s e h]
    intro p hp
    simp at hp

/-! Claims about the Date Windower. -/

/-- C1 (amended): for every start date, positive window length, and end date
with start < end, make_date_slices emits the component dicts of the raw cursor
windows, where the first window starts at start, every window (hence each
non-final window) spans exactly window_in_days days, consecutive windows are
contiguous and every non-final window ends at most at end, and the final window
starts before end and ends at its cursor plus the window length, at or past
end: the emitted end components of the final window are those of the unclipped
candidate end, not those of the parsed end date. -/
theorem claim_C1_amended (s w e : Int) (hw : 0 < w) (hse : s < e) :
    make_date_slices s w e =
      (make_date_slices_raw s w e).map (fun p => dateRangeDict p.1 p.2) ∧
    (make_date_slices_raw s w e).head? = some (s, s + w) ∧
    (∀ p ∈ make_date_slices_raw s w e, p.2 = p.1 + w) ∧
    List.Chain' (fun p q : Int × Int => p.2 ≤ e ∧ q.1 = p.2)
      (make_date_slices_raw s w e) ∧
    (∀ p, (make_date_slices_raw s w e).getLast? = some p → p.1 < e ∧ e ≤ p.2) := by
  have hr := make_date_slices_raw_eq_dsList s w e hw
  refine ⟨rfl, ?_, ?_, ?_, ?_⟩
  · rw [hr, dsList_pos w s e ⟨hse, hw⟩]; rfl
  · rw [hr]; exact dsList_span w s e
  · rw [hr]; exact dsList_chain w s e
  · rw [hr]; exact dsList_getLast w s e hw

/-- Witness for C1 (amended) at start 2021-01-01 (day 18628), window 30,
end 2021-02-15 (day 18673). -/
theorem claim_C1_witness :
    (0 : Int) < 30 ∧ (18628 : Int) < 18673 ∧
    (make_date_slices 18628 30 18673 =
      (make_date_slices_raw 18628 30 18673).map (fun p => dateRangeDict p.1 p.2) ∧
    (make_date_slices_raw 18628 30 18673).head? = some (18628, 18628 + 30) ∧
    (∀ p ∈ make_date_slices_raw 18628 30 18673, p.2 = p.1 + 30) ∧
    List.Chain' (fun p q : Int × Int => p.2 ≤ 18673 ∧ q.1 = p.2)
      (make_date_slices_raw 18628 30 18673) ∧
    (∀ p, (make_date_slices_raw 18628 30 18673).getLast? = some p →
      p.1 < 18673 ∧ 18673 ≤ p.2)) :=
  ⟨by decide, by decide, claim_C1_amended 18628 30 18673 (by decide) (by decide)⟩

/-- C1 counterexample: at start 2021-01-01, window 30, end 2021-01-20, the sole
emitted window's end components are day 31, month 1 (the unclipped candidate
2021-01-31), while the parsed end date has day 20: the final window does not
end at the end date. -/
theorem claim_C1_counterexample :
    make_date_slices (days_from_civil 2021 1 1) 30 (days_from_civil 2021 1 20) =
      [[("dateRange", JVal.obj
          [("start.day", .int 1), ("start.month", .int 1), ("start.year", .int 2021),
           ("end.day", .int 31), ("end.month", .int 1), ("end.year", .int 2021)])]] ∧
    civil_from_days (days_from_civil 2021 1 20) = (2021, 1, 20) ∧
    (31 : Int) ≠ 20 :=
  ⟨rfl, by decide, by decide⟩

/-- C2 (amended): with start_date 2021-01-01, window 30 and end_date 2021-02-15,
make_date_slices returns exactly 2 windows: the first from 2021-01-01 to
2021-01-31, and the second starting at 2021-01-31 and ending at 2021-03-02
(30 days after its start, the unclipped candidate end), not at 2021-02-15. -/
theorem claim_C2_amended :
    make_date_slices (days_from_civil 2021 1 1) 30 (days_from_civil 2021 2 15) =
      [dateRangeDict (days_from_civil 2021 1 1) (days_from_civil 2021 1 31),
       dateRangeDict (days_from_civil 2021 1 31) (days_from_civil 2021 3 2)] ∧
    (make_date_slices (days_from_civil 2021 1 1) 30
      (days_from_civil 2021 2 15)).length = 2 :=
  ⟨rfl, rfl⟩

/-- C2 counterexample: the second window emitted for start 2021-01-01, window
30, end 2021-02-15 has end components day 2, month 3 (2021-03-02), while the
claim demands day 15, month 2 (2021-02-15). -/
theorem claim_C2_counterexample :
    make_date_slices (days_from_civil 2021 1 1) 30 (days_from_civil 2021 2 15) =
      [[("dateRange", JVal.obj
          [("start.day", .int 1), ("start.month", .int 1), ("start.year", .int 2021),
           ("end.day", .int 31), ("end.month", .int 1), ("end.year", .int 2021)])],
       [("dateRange", JVal.obj
          [("start.day", .int 31), ("start.month", .int 1), ("start.year", .int 2021),
           ("end.day", .int 2), ("end.month", .int 3), ("end.year", .int 2021)])]] ∧
    civil_from_days (days_from_civil 2021 2 15) = (2021, 2, 15) ∧
    ((2 : Int), (3 : Int)) ≠ ((15 : Int), (2 : Int)) :=
  ⟨rfl, by decide, by decide⟩

/-- C8: for every start date and end date with parsed end ≤ parsed start,
make_date_slices returns the empty sequence, for any window length. -/
theorem claim_C8 (s w e : Int) (h : e ≤ s) : make_date_slices s w e = [] := by
  simp [make_date_slices, make_date_slices_raw,
    Int.toNat_of_nonpos (show e - s ≤ 0 by omega), dateSlicesLoop, not_lt.mpr h]

/-- Witness for C8 at start = end = 2021-02-15 (day 18673). -/
theorem claim_C8_witness :
    (18673 : Int) ≤ 18673 ∧ make_date_slices 18673 30 18673 = [] :=
  ⟨by decide, claim_C8 18673 30 18673 (by decide)⟩

set_option maxRecDepth 4000 in
/-- C10 counterexample: at window 0, start 0, end 1, the cursor does not
strictly increase (nextCursor returns the same cursor even though cursor < end)
and the loop makes no progress: 100 fuelled iterations do not complete. -/
theorem claim_C10_counterexample :
    (0 : Int) < 1 ∧ nextCursor 0 1 0 = 0 ∧ dateSlicesLoop 0 100 0 1 = none :=
  ⟨by decide, rfl, by rfl⟩

/-- C10 (amended): for every positive window length, the cursor strictly
increases on each iteration while cursor < end, and the loop completes within
(end - start).toNat + 1 iterations, returning the finite window sequence. -/
theorem claim_C10_amended (s w e : Int) (hw : 0 < w) :
    (s < e → s < nextCursor s e w) ∧
    dateSlicesLoop w ((e - s).toNat + 1) s e = some (make_date_slices_raw s w e) := by
  constructor
  · intro h; rw [nextCursor_eq]; split <;> omega
  · rw [dateSlicesLoop_eq_dsList w e hw _ s (by omega),
      make_date_slices_raw_eq_dsList s w e hw]

/-- Witness for C10 (amended) at start 0, window 30, end 45. -/
theorem claim_C10_witness :
    (0 : Int) < 30 ∧
    ((0 : Int) < 45 → (0 : Int) < nextCursor 0 45 30) ∧
    dateSlicesLoop 30 ((45 - 0 : Int).toNat + 1) 0 45 =
      some (make_date_slices_raw 0 30 45) :=
  ⟨by decide, (claim_C10_amended 0 30 45 (by decide)).1,
    (claim_C10_amended 0 30 45 (by decide)).2⟩

/-! Chunker lemmas and claims. -/

theorem rawChunks_nil (size : Nat) : rawChunks size [] = [] := by
  rw [rawChunks.eq_def]

theorem rawChunks_cons (s : Nat) (f : String) (fs : List String) :
    rawChunks (s + 1) (f :: fs) =
      (f :: fs).take (s + 1) :: rawChunks (s + 1) (fs.drop s) := by
  rw [rawChunks.eq_def]

theorem includeBaseFields_eq (c : List String) :
    includeBaseFields c =
      c ++ BASE_ANALLYTICS_FIELDS.filter (fun b => decide (b ∉ c)) := by
  by_cases h1 : "dateRange" ∈ c <;> by_cases h2 : "pivot" ∈ c <;>
    by_cases h3 : "pivotValue" ∈ c <;>
    simp [includeBaseFields, BASE_ANALLYTICS_FIELDS, h1, h2, h3]

theorem rawChunks_flatten (M : Nat) (C : List String) :
    0 < M → (rawChunks M C).flatten = C := by
  induction M, C using rawChunks.induct with
  | case1 size =>
    intro
    rw [rawChunks_nil]
    rfl
  | case2 f fs => omega
  | case3 f fs s ih =>
    intro
    have ih' := ih (by omega)
    rw [rawChunks_cons, List.flatten_cons, ih', List.take_cons]
    · simp [List.take_append_drop]
    · omega

theorem rawChunks_getElem (M : Nat) (C : List String) :
    0 < M → ∀ i : Nat, (rawChunks M C)[i]? =
      if C.drop (i * M) = [] then none else some ((C.drop (i * M)).take M) := by
  induction M, C using rawChunks.induct with
  | case1 size =>
    intro _ i
    rw [rawChunks_nil]
    simp
  | case2 f fs => omega
  | case3 f fs s ih =>
    intro _ i
    rw [rawChunks_cons]
    match i with
    | 0 => simp
    | i + 1 =>
      have ih' := ih (by omega) i
      simp only [Nat.succ_eq_add_one]
      rw [List.getElem?_cons_succ, ih', List.drop_drop,
        show (i + 1) * (s + 1) = (s + i * (s + 1)) + 1 from by ring,
        List.drop_succ_cons]

/-- C3: for every field list and chunk size > 0, every chunk returned by
chunk_analytics_fields contains every base field (dateRange, pivot,
pivotValue), and each chunk is its raw slice with exactly the missing base
fields appended at the end, in base-field-list order. -/
theorem claim_C3 (fields : List String) (M : Nat) (_hM : 0 < M) :
    (∀ chunk ∈ chunk_analytics_fields fields M,
      ∀ b ∈ BASE_ANALLYTICS_FIELDS, b ∈ chunk) ∧
    (∀ raw ∈ rawChunks M fields,
      includeBaseFields raw =
        raw ++ BASE_ANALLYTICS_FIELDS.filter (fun b => decide (b ∉ raw))) := by
  constructor
  · intro chunk hc b hb
    obtain ⟨raw, _, rfl⟩ := List.mem_map.mp hc
    rw [includeBaseFields_eq]
    by_cases h : b ∈ raw
    · exact List.mem_append.mpr (Or.inl h)
    · exact List.mem_append.mpr (Or.inr (List.mem_filter.mpr ⟨hb, by simp [h]⟩))
  · intro raw _
    exact includeBaseFields_eq raw

/-- Witness for C3 at the one-field catalog and chunk size 1. -/
theorem claim_C3_witness :
    0 < 1 ∧
    ((∀ chunk ∈ chunk_analytics_fields ["a"] 1,
       ∀ b ∈ BASE_ANALLYTICS_FIELDS, b ∈ chunk) ∧
     (∀ raw ∈ rawChunks 1 ["a"],
       includeBaseFields raw =
         raw ++ BASE_ANALLYTICS_FIELDS.filter (fun b => decide (b ∉ raw)))) :=
  ⟨by decide, claim_C3 ["a"] 1 (by decide)⟩

/-- C4: for every field catalog and max chunk size M > 0, the pre-augmentation
chunks are exactly the consecutive M-sized slices of the catalog (the i-th
chunk is the take-M of the drop of i*M elements, defined exactly while that
region is nonempty), their concatenation restores the catalog in order, and
the returned chunks are the base-field augmentations of these slices. -/
theorem claim_C4 (C : List String) (M : Nat) (hM : 0 < M) :
    (rawChunks M C).flatten = C ∧
    (∀ i : Nat, (rawChunks M C)[i]? =
      if C.drop (i * M) = [] then none else some ((C.drop (i * M)).take M)) ∧
    chunk_analytics_fields C M = (rawChunks M C).map includeBaseFields :=
  ⟨rawChunks_flatten M C hM, rawChunks_getElem M C hM, rfl⟩

/-- Witness for C4 at the three-element catalog and chunk size 2. -/
theorem claim_C4_witness :
    0 < 2 ∧
    ((rawChunks 2 ["x", "y", "z"]).flatten = ["x", "y", "z"] ∧
     (∀ i : Nat, (rawChunks 2 ["x", "y", "z"])[i]? =
       if List.drop (i * 2) ["x", "y", "z"] = [] then none
       else some ((List.drop (i * 2) ["x", "y", "z"]).take 2)) ∧
     chunk_analytics_fields ["x", "y", "z"] 2 =
       (rawChunks 2 ["x", "y", "z"]).map includeBaseFields) :=
  ⟨by decide, claim_C4 ["x", "y", "z"] 2 (by decide)⟩

/-! Param Flattener claim. -/

/-- C6: round-trip — for every slice containing a dateRange entry with its six
components and a fields entry, update_analytics_params returns the flat mapping
whose seven values are copied verbatim from the nested entries of the slice. -/
theorem claim_C6 (s d : JDict) (sd sm sy ed em ey fv : JVal)
    (hdr : dictGet s "dateRange" = some (.obj d))
    (h1 : dictGet d "start.day" = some sd)
    (h2 : dictGet d "start.month" = some sm)
    (h3 : dictGet d "start.year" = some sy)
    (h4 : dictGet d "end.day" = some ed)
    (h5 : dictGet d "end.month" = some em)
    (h6 : dictGet d "end.year" = some ey)
    (hf : dictGet s "fields" = some fv) :
    update_analytics_params s = some
      [("dateRange.start.day", sd), ("dateRange.start.month", sm),
       ("dateRange.start.year", sy), ("dateRange.end.day", ed),
       ("dateRange.end.month", em), ("dateRange.end.year", ey),
       ("fields", fv)] := by
  simp only [update_analytics_params, hdr, Option.some_bind]
  simp [h1, h2, h3, h4, h5, h6, hf]

/-- Witness for C6 at a concrete well-formed slice. -/
theorem claim_C6_witness :
    update_analytics_params
      [("fields", .str "clicks"),
       ("dateRange", JVal.obj
         [("start.day", .int 1), ("start.month", .int 1), ("start.year", .int 2021),
          ("end.day", .int 31), ("end.month", .int 1), ("end.year", .int 2021)])] =
      some
        [("dateRange.start.day", .int 1), ("dateRange.start.month", .int 1),
         ("dateRange.start.year", .int 2021), ("dateRange.end.day", .int 31),
         ("dateRange.end.month", .int 1), ("dateRange.end.year", .int 2021),
         ("fields", .str "clicks")] :=
  claim_C6 _ _ _ _ _ _ _ _ _ rfl rfl rfl rfl rfl rfl rfl rfl

/-! Result Merger claims. -/

theorem mergeInner_none_iff (key : String) (chunk : List JDict) :
    ∀ m : List (JVal × JDict),
      (chunk.foldlM (fun m' rec =>
        (dictGet rec key).map (fun hk => mergedInsert m' hk rec)) m) = none ↔
      ∃ rec ∈ chunk, dictGet rec key = none := by
  induction chunk with
  | nil => intro m; simp
  | cons r t ih =>
    intro m
    simp only [List.foldlM_cons]
    cases hr : dictGet r key with
    | none =>
      simp only [hr, Option.map_none', Option.bind_eq_bind, Option.none_bind]
      constructor
      · intro _
        exact ⟨r, List.mem_cons_self r t, hr⟩
      · intro _
        trivial
    | some hk =>
      simp only [hr, Option.map_some', Option.bind_eq_bind, Option.some_bind]
      rw [ih (mergedInsert m hk r)]
      constructor
      · rintro ⟨rec, hm, hn⟩
        exact ⟨rec, List.mem_cons_of_mem r hm, hn⟩
      · rintro ⟨rec, hm, hn⟩
        rcases List.mem_cons.mp hm with rfl | hm
        · rw [hr] at hn
          cases hn
        · exact ⟨rec, hm, hn⟩

theorem mergeMap_none_iff (chunks : List (List JDict)) (key : String) :
    mergeMap chunks key = none ↔
      ∃ rec ∈ chunks.flatten, dictGet rec key = none := by
  unfold mergeMap
  suffices h : ∀ m : List (JVal × JDict),
      (chunks.foldlM (fun m chunk =>
        chunk.foldlM (fun m' rec =>
          (dictGet rec key).map (fun hk => mergedInsert m' hk rec)) m) m) = none ↔
      ∃ rec ∈ chunks.flatten, dictGet rec key = none from h []
  induction chunks with
  | nil => intro m; simp
  | cons c t ih =>
    intro m
    simp only [List.foldlM_cons]
    cases hc : c.foldlM (fun m' rec =>
        (dictGet rec key).map (fun hk => mergedInsert m' hk rec)) m with
    | none =>
      simp only [hc, Option.bind_eq_bind, Option.none_bind]
      constructor
      · intro _
        obtain ⟨rec, hm, hn⟩ := (mergeInner_none_iff key c m).mp hc
        exact ⟨rec, by simp [List.mem_flatten]; exact Or.inl hm, hn⟩
      · intro _
        trivial
    | some m' =>
      simp only [hc, Option.bind_eq_bind, Option.some_bind]
      rw [ih m']
      constructor
      · rintro ⟨rec, hm, hn⟩
        refine ⟨rec, ?_, hn⟩
        simp only [List.flatten_cons, List.mem_append]
        exact Or.inr hm
      · rintro ⟨rec, hm, hn⟩
        simp only [List.flatten_cons, List.mem_append] at hm
        rcases hm with hm | hm
        · exact absurd ((mergeInner_none_iff key c m).mpr ⟨rec, hm, hn⟩)
            (by simp [hc])
        · exact ⟨rec, hm, hn⟩

/-- C9: merge_chunks fails (returns none, modelling the propagated KeyError)
exactly when some input partial record lacks the merge_by_key field; when every
record contains the key, no error occurs. -/
theorem claim_C9 (chunks : List (List JDict)) (key : String) :
    merge_chunks chunks key = none ↔
      ∃ rec ∈ chunks.flatten, dictGet rec key = none := by
  have h1 : merge_chunks chunks key = none ↔ mergeMap chunks key = none := by
    unfold merge_chunks
    cases mergeMap chunks key <;> simp
  rw [h1, mergeMap_none_iff]

/-! Slice Builder claims. -/

theorem dr_beq_fields : (("dateRange" : String) == "fields") = false := by decide

theorem goodAcc_refl (base : JDict) : GoodAcc base base := fun _ _ => rfl

theorem goodAcc_set_fields (base X : JDict) (c0 : JVal) (h : GoodAcc base X) :
    GoodAcc base (dictSet X "fields" c0) := by
  intro c v
  rw [dictSet_dictSet_same]
  exact h c v

theorem goodAcc_set_dr (base X : JDict) (w : JVal)
    (hK : hasKey X "fields" = true) (h : GoodAcc base X) :
    GoodAcc base (dictSet X "dateRange" w) := by
  intro c v
  rw [dictSet_swap X "fields" "dateRange" c w hK dr_beq_fields,
    dictSet_dictSet_same]
  exact h c v

theorem goodAcc_foldl_dr (base : JDict) (vs : List JVal) :
    ∀ X : JDict, hasKey X "fields" = true → GoodAcc base X →
      hasKey (vs.foldl (fun bb v => dictSet bb "dateRange" v) X) "fields" = true ∧
      GoodAcc base (vs.foldl (fun bb v => dictSet bb "dateRange" v) X) := by
  induction vs with
  | nil => intro X h1 h2; exact ⟨h1, h2⟩
  | cons v t ih =>
    intro X h1 h2
    simp only [List.foldl_cons]
    have hk : hasKey (dictSet X "dateRange" v) "fields" = true := by
      rw [hasKey_dictSet_ne X "fields" "dateRange" v dr_beq_fields]
      exact h1
    exact ih _ hk (goodAcc_set_dr base X v h1 h2)

theorem innerFold_spec (vs : List JVal) :
    ∀ (b : JDict) (out : List JDict),
      (vs.foldl (fun acc2 v =>
          (dictSet acc2.1 "dateRange" v, acc2.2 ++ [dictSet acc2.1 "dateRange" v]))
        (b, out)) =
      (vs.foldl (fun bb v => dictSet bb "dateRange" v) b,
        out ++ vs.map (fun v => dictSet b "dateRange" v)) := by
  induction vs with
  | nil => intro b out; simp
  | cons v t ih =>
    intro b out
    simp only [List.foldl_cons, List.map_cons]
    rw [ih (dictSet b "dateRange" v) (out ++ [dictSet b "dateRange" v])]
    refine Prod.ext rfl ?_
    show out ++ [dictSet b "dateRange" v] ++
        t.map (fun v' => dictSet (dictSet b "dateRange" v) "dateRange" v') =
      out ++ (dictSet b "dateRange" v :: t.map (fun v' => dictSet b "dateRange" v'))
    rw [List.map_congr_left
        (fun a _ => dictSet_dictSet_same b "dateRange" v a),
      List.append_assoc, List.singleton_append]

theorem builderFold_spec (base : JDict) (vs : List JVal)
    (cs : List (List String)) :
    ∀ (A : JDict) (out : List JDict),
      GoodAcc base A →
      (cs.foldl (fun acc fields_set =>
          let b1 := dictSet acc.1 "fields" (.str (joinFields fields_set))
          (vs.map (fun v => [("dateRange", v)])).foldl
            (fun acc2 date_slice =>
              let b2 := dictUpdate acc2.1 date_slice
              (b2, acc2.2 ++ [b2])) (b1, acc.2))
        (A, out)).2 =
      out ++ cs.flatMap (fun c => vs.map (fun v =>
        dictSet (dictSet base "fields" (JVal.str (joinFields c))) "dateRange" v)) := by
  induction cs with
  | nil => intro A out _; simp
  | cons c cs' ih =>
    intro A out hA
    simp only [List.foldl_cons, List.flatMap_cons]
    rw [List.foldl_map]
    have hstep : (fun (acc2 : JDict × List JDict) (v : JVal) =>
        (fun (acc2 : JDict × List JDict) (date_slice : JDict) =>
          let b2 := dictUpdate acc2.1 date_slice
          (b2, acc2.2 ++ [b2])) acc2 [("dateRange", v)]) =
        (fun (acc2 : JDict × List JDict) (v : JVal) =>
          (dictSet acc2.1 "dateRange" v,
            acc2.2 ++ [dictSet acc2.1 "dateRange" v])) := rfl
    rw [hstep, innerFold_spec vs (dictSet A "fields" (.str (joinFields c))) out]
    have hgood := goodAcc_foldl_dr base vs
      (dictSet A "fields" (.str (joinFields c)))
      (hasKey_dictSet A "fields" (.str (joinFields c)))
      (goodAcc_set_fields base A (.str (joinFields c)) hA)
    rw [ih _ _ hgood.2,
      List.map_congr_left (fun v _ => hA (JVal.str (joinFields c)) v),
      List.append_assoc]

/-- C7: for a single outer entity, make_analytics_slices returns exactly one
slice per (field chunk, date window) pair, the chunks in catalog order as the
outer loop with the date windows in chronological order as the inner loop:
the result is the flat-map over chunks of the per-window slices, and its
length is the number of chunks times the number of date windows. -/
theorem claim_C7 (base_slice : JDict) (start_date now : Int) :
    make_analytics_slices base_slice start_date now =
      (chunk_analytics_fields ANALYTICS_FIELDS_V2 FIELDS_CHUNK_SIZE).flatMap
        (fun c => (make_date_slices_raw start_date WINDOW_IN_DAYS now).map
          (fun p => dictSet
            (dictSet base_slice "fields" (JVal.str (joinFields c)))
            "dateRange" (drVal p.1 p.2))) ∧
    (make_analytics_slices base_slice start_date now).length =
      (chunk_analytics_fields ANALYTICS_FIELDS_V2 FIELDS_CHUNK_SIZE).length *
      (make_date_slices start_date WINDOW_IN_DAYS now).length := by
  have hwindows : make_date_slices start_date WINDOW_IN_DAYS now =
      ((make_date_slices_raw start_date WINDOW_IN_DAYS now).map
        (fun p => drVal p.1 p.2)).map (fun v => [("dateRange", v)]) := by
    unfold make_date_slices
    rw [List.map_map]
    rfl
  have hmain : make_analytics_slices base_slice start_date now =
      (chunk_analytics_fields ANALYTICS_FIELDS_V2 FIELDS_CHUNK_SIZE).flatMap
        (fun c => (make_date_slices_raw start_date WINDOW_IN_DAYS now).map
          (fun p => dictSet
            (dictSet base_slice "fields" (JVal.str (joinFields c)))
            "dateRange" (drVal p.1 p.2))) := by
    unfold make_analytics_slices
    rw [hwindows, builderFold_spec base_slice
      ((make_date_slices_raw start_date WINDOW_IN_DAYS now).map
        (fun p => drVal p.1 p.2))
      (chunk_analytics_fields ANALYTICS_FIELDS_V2 FIELDS_CHUNK_SIZE)
      base_slice [] (goodAcc_refl base_slice), List.nil_append]
    congr 1
    funext c
    rw [List.map_map]
    rfl
  refine ⟨hmain, ?_⟩
  rw [hmain, List.length_flatMap,
    show (make_date_slices start_date WINDOW_IN_DAYS now).length =
      (make_date_slices_raw start_date WINDOW_IN_DAYS now).length from by
        unfold make_date_slices; rw [List.length_map]]
  rw [show (List.length ∘ fun c => (make_date_slices_raw start_date
        WINDOW_IN_DAYS now).map
        (fun p => dictSet (dictSet base_slice "fields"
          (JVal.str (joinFields c))) "dateRange" (drVal p.1 p.2))) =
      (fun _ : List String => (make_date_slices_raw start_date
        WINDOW_IN_DAYS now).length) from by
    funext c
    simp [Function.comp]]
  rw [List.map_const', List.sum_replicate, smul_eq_mul]

/-! Result Merger ordering claim. -/

theorem mergedInsert_keys (m : List (JVal × JDict)) (hk : JVal) (rec : JDict) :
    (mergedInsert m hk rec).map (fun p => p.1) =
      if m.any (fun p => p.1.beq hk) then m.map (fun p => p.1)
      else m.map (fun p => p.1) ++ [hk] := by
  unfold mergedInsert
  by_cases h : m.any (fun p => p.1.beq hk)
  · rw [if_pos h, if_pos h, List.map_map]
    apply List.map_congr_left
    intro p _
    by_cases hp : p.1.beq hk <;> simp [Function.comp, hp]
  · rw [if_neg h, if_neg h, List.map_append]
    rfl

theorem any_map_fst (m : List (JVal × JDict)) (hk : JVal) :
    ((m.map (fun p => p.1)).any (fun x => x.beq hk)) =
      m.any (fun p => p.1.beq hk) := by
  induction m with
  | nil => rfl
  | cons p t ih => simp only [List.map_cons, List.any_cons, ih]

theorem mergeInner_keys (key : String) (chunk : List JDict) :
    ∀ (m m' : List (JVal × JDict)),
      (chunk.foldlM (fun m' rec =>
        (dictGet rec key).map (fun hk => mergedInsert m' hk rec)) m) = some m' →
      m'.map (fun p => p.1) =
        (chunk.filterMap (fun r => dictGet r key)).foldl
          (fun acc k => if acc.any (fun x => x.beq k) then acc else acc ++ [k])
          (m.map (fun p => p.1)) := by
  induction chunk with
  | nil =>
    intro m m' h
    simp only [List.foldlM_nil, Option.pure_def, Option.some.injEq] at h
    subst h
    rfl
  | cons r t ih =>
    intro m m' h
    simp only [List.foldlM_cons] at h
    cases hr : dictGet r key with
    | none =>
      rw [hr] at h
      simp at h
    | some hk =>
      rw [hr] at h
      simp only [Option.map_some', Option.bind_eq_bind, Option.some_bind] at h
      have hfm : (r :: t).filterMap (fun r => dictGet r key) =
          hk :: t.filterMap (fun r => dictGet r key) := by
        rw [List.filterMap_cons, hr]
      rw [ih (mergedInsert m hk r) m' h, hfm, List.foldl_cons]
      congr 1
      rw [mergedInsert_keys, any_map_fst]

theorem mergeMap_keys (key : String) (chunks : List (List JDict)) :
    ∀ (m m' : List (JVal × JDict)),
      (chunks.foldlM (fun m chunk =>
        chunk.foldlM (fun m' rec =>
          (dictGet rec key).map (fun hk => mergedInsert m' hk rec)) m) m) = some m' →
      m'.map (fun p => p.1) =
        (chunks.flatten.filterMap (fun r => dictGet r key)).foldl
          (fun acc k => if acc.any (fun x => x.beq k) then acc else acc ++ [k])
          (m.map (fun p => p.1)) := by
  induction chunks with
  | nil =>
    intro m m' h
    simp only [List.foldlM_nil, Option.pure_def, Option.some.injEq] at h
    subst h
    rfl
  | cons c t ih =>
    intro m m' h
    simp only [List.foldlM_cons] at h
    cases hc : c.foldlM (fun m' rec =>
        (dictGet rec key).map (fun hk => mergedInsert m' hk rec)) m with
    | none =>
      rw [hc] at h
      simp at h
    | some m1 =>
      rw [hc] at h
      simp only [Option.bind_eq_bind, Option.some_bind] at h
      rw [ih m1 m' h, mergeInner_keys key c m m1 hc,
        List.flatten_cons, List.filterMap_append, List.foldl_append]

/-- C5: merge_chunks on the collections [[{id:1,a:10},{id:2,a:20}],[{id:1,b:100}]]
with merge key id returns [{id:1,a:10,b:100},{id:2,a:20}] in that order; and in
general the merged map holds one record per distinct merge-key value, keyed in
first-sighting order of the key values across the flattened input, with
field-level last-write-wins applied by the in-place dict update. -/
theorem claim_C5 :
    merge_chunks
      [[[("id", JVal.int 1), ("a", JVal.int 10)],
        [("id", JVal.int 2), ("a", JVal.int 20)]],
       [[("id", JVal.int 1), ("b", JVal.int 100)]]] "id" =
      some [[("id", JVal.int 1), ("a", JVal.int 10), ("b", JVal.int 100)],
            [("id", JVal.int 2), ("a", JVal.int 20)]] ∧
    ∀ (chunks : List (List JDict)) (key : String) (m : List (JVal × JDict)),
      mergeMap chunks key = some m →
      merge_chunks chunks key = some (m.map (fun p => p.2)) ∧
      m.map (fun p => p.1) =
        dedupFirst (chunks.flatten.filterMap (fun r => dictGet r key)) := by
  refine ⟨rfl, ?_⟩
  intro chunks key m h
  constructor
  · unfold merge_chunks
    rw [h]
    rfl
  · unfold dedupFirst
    exact mergeMap_keys key chunks [] m h

/-- Witness for C5's general clause at a one-record input. -/
theorem claim_C5_witness :
    merge_chunks [[[("id", JVal.int 1)]]] "id" =
      some ([(JVal.int 1, [("id", JVal.int 1)])].map (fun p => p.2)) ∧
    [(JVal.int 1, [("id", JVal.int 1)])].map (fun p => p.1) =
      dedupFirst (([[[("id", JVal.int 1)]]] : List (List JDict)).flatten.filterMap
        (fun r => dictGet r "id")) :=
  claim_C5.2 [[[("id", JVal.int 1)]]] "id" [(JVal.int 1, [("id", JVal.int 1)])] rfl
